import Mathlib

/-!
Shallow embedding of `exchange_calendars_extensions/api/changes.py` (the
changeset model of the `exchange_calendars_extensions_api` package), together
with proofs about the embedded operations.

Conventions of the embedding:

* `pd.Timestamp` is a count of nanoseconds since the epoch, so it is embedded
  as `Int` (`Timestamp` below).  A bare calendar date corresponds to a
  multiple of `nanosPerDay`; `pd.Timestamp` comparison and equality are the
  integer ones.
* `dt.time` is embedded as a record of hour/minute/second (`Time` below);
  instances constructed by Python's `datetime` are always range-valid.
* Python exceptions raised by the validation layer are embedded as `PErr`:
  `validationError` stands for a `pydantic.ValidationError` (which is a
  subclass of `ValueError`), and `dupAdd d` stands for the plain
  `ValueError(f'Day {d} already in days to add.')` raised by
  `ChangeSet.add_day`.
* Mutating methods of `ChangeSet` are embedded as functions returning an
  `OpResult`: the optional exception together with the state of the object
  after the call returns or the exception propagates.  Every `raise` in the
  source happens either before any field mutation or after the explicit
  rollback code, and the embedding reproduces those paths explicitly.
* `self.model_validate(self, strict=True)` runs the model's
  `mode='after'` validator `_canonicalize` on the instance in place (pydantic
  does not re-validate the fields of an existing instance, but the after
  validator does run); `_canonicalize` only sorts and deduplicates, so this
  call cannot raise.  It is embedded as `ChangeSet.canonicalize`, and the
  (unreachable) exception branches of the source are kept as dead branches of
  the embedding.
* The `Tags` annotation (`Union[Collection[str], None]`) is validated, per
  the repository's own test-suite (`test_set_invalid_tags`), by checking that
  the value is `None` or a collection whose every element is a string;
  anything else raises a `ValidationError`.
-/

namespace ExchCal

/-- `pd.Timestamp`: nanoseconds since the epoch. -/
abbrev Timestamp := Int

/-- Nanoseconds in one calendar day. -/
def nanosPerDay : Int := 86400000000000

/-- Embedding of `datetime.time` (as produced by the `%H:%M[:%S]` parser). -/
structure Time where
  hour : Nat
  minute : Nat
  second : Nat
  deriving DecidableEq, Repr

/-- Embedding of Python exceptions surfaced by the changeset layer.
`validationError` is a `pydantic.ValidationError`; `dupAdd d` is the plain
`ValueError` raised by `add_day` for a duplicate date `d`. -/
inductive PErr where
  | validationError
  | dupAdd (date : Timestamp)
  deriving DecidableEq, Repr

/-- Split a character list at every colon (the only literal in the two
accepted time formats). -/
def splitColon (l : List Char) : List (List Char) :=
  match l with
  | [] => [[]]
  | c :: rest =>
    let r := splitColon rest
    if c = ':' then [] :: r
    else
      match r with
      | [] => [[c]]
      | g :: gs => (c :: g) :: gs

/-- Numeric value of a list of decimal digits. -/
def digitsToNat (l : List Char) : Nat :=
  l.foldl (fun a c => a * 10 + (c.toNat - 48)) 0

/-- A component matched by `%H`, `%M` or `%S`: one or two decimal digits. -/
def parse2 (l : List Char) : Option Nat :=
  if (l.length = 1 ∨ l.length = 2) ∧ l.all (fun c => c.isDigit) then
    some (digitsToNat l)
  else none

/-- `datetime.strptime(value, '%H:%M')`, as a partial function. -/
def parseTimeHM (s : String) : Option Time :=
  match splitColon s.data with
  | [h, m] =>
    match parse2 h, parse2 m with
    | some hv, some mv => if hv < 24 ∧ mv < 60 then some ⟨hv, mv, 0⟩ else none
    | _, _ => none
  | _ => none

/-- `datetime.strptime(value, '%H:%M:%S')`, as a partial function. -/
def parseTimeHMS (s : String) : Option Time :=
  match splitColon s.data with
  | [h, m, sec] =>
    match parse2 h, parse2 m, parse2 sec with
    | some hv, some mv, some sv =>
      if hv < 24 ∧ mv < 60 ∧ sv < 60 then some ⟨hv, mv, sv⟩ else none
    | _, _, _ => none
  | _ => none

/-- The string branch of `_to_time`: try `%H:%M` first, then `%H:%M:%S`. -/
def parseTimeStr (s : String) : Option Time :=
  (parseTimeHM s).orElse fun _ => parseTimeHMS s

/-- Input to the `TimeLike` validator: either a `dt.time` instance or a
string. -/
inductive TimeInput where
  | timeObj (t : Time)
  | timeStr (s : String)
  deriving DecidableEq, Repr

/-- `_to_time`: a `dt.time` passes through unchanged, a string must parse
with one of the two accepted formats. -/
def to_time : TimeInput → Except PErr Time
  | .timeObj t => .ok t
  | .timeStr s =>
    match parseTimeStr s with
    | some t => .ok t
    | none => .error .validationError

/-- A date-like input value, as classified by `_to_timestamp`:
an existing `pd.Timestamp`; a `datetime.date` for day index `d`; a bare date
string denoting day index `d`; a point-in-time string denoting day index `d`
plus `n` nanoseconds of wall-clock time; or an unparseable string. -/
inductive TsInput where
  | ts (t : Timestamp)
  | dateObj (d : Int)
  | dateStr (d : Int)
  | datetimeStr (d : Int) (n : Int)
  | badStr
  deriving DecidableEq, Repr

/-- `_to_timestamp`: a `pd.Timestamp` is returned unchanged; anything else is
passed to the `pd.Timestamp` constructor (dates and bare date strings map to
midnight of their day, point-in-time strings keep their time of day), and a
conversion failure is re-raised as a `ValueError` (embedded as a validation
error, since `validate_call` wraps it either way).  Note that no
normalisation to day granularity takes place. -/
def to_timestamp : TsInput → Except PErr Timestamp
  | .ts t => .ok t
  | .dateObj d => .ok (d * nanosPerDay)
  | .dateStr d => .ok (d * nanosPerDay)
  | .datetimeStr d n => .ok (d * nanosPerDay + n)
  | .badStr => .error .validationError

/-- The `DayType` enumeration. -/
inductive DayType where
  | holiday
  | special_open
  | special_close
  | monthly_expiry
  | quarterly_expiry
  deriving DecidableEq, Repr

/-- The day types admitted by the plain `DayProps` model. -/
def DayType.isPlain : DayType → Bool
  | .holiday | .monthly_expiry | .quarterly_expiry => true
  | _ => false

/-- The day types admitted by `DayPropsWithTime`. -/
def DayType.isSpecial : DayType → Bool
  | .special_open | .special_close => true
  | _ => false

/-- A validated day-properties value: `DayProps` (`props`) or
`DayPropsWithTime` (`propsWithTime`), the two members of the discriminated
union `DayPropsLike`. -/
inductive DayPropsLike where
  | props (type : DayType) (name : String)
  | propsWithTime (type : DayType) (name : String) (time : Time)
  deriving DecidableEq, Repr

/-- Well-formedness of a `DayPropsLike` value: Python can only construct the
plain shape for plain day types and the timed shape for special day types
(the `Literal` annotations of the two models). -/
def DayPropsLike.wf : DayPropsLike → Bool
  | .props ty _ => ty.isPlain
  | .propsWithTime ty _ _ => ty.isSpecial

/-- A raw mapping offered to the `DayPropsLike` validator: the `type`
discriminator (`none` when missing or not a valid `DayType` value), the
optional `name` and `time` entries, and the list of any unknown keys. -/
structure RawDayProps where
  type : Option DayType
  name : Option String
  time : Option TimeInput
  extra : List String
  deriving DecidableEq, Repr

/-- Validation of a raw mapping against the discriminated union
`DayPropsLike`: the discriminator selects `DayProps` (plain day types, fields
`type` and `name` only) or `DayPropsWithTime` (special day types, fields
`type`, `name` and `time`); both models are declared with `extra='forbid'`,
so an unknown key — including `time` on the plain model — fails validation. -/
def validateDayProps (r : RawDayProps) : Except PErr DayPropsLike :=
  match r.type with
  | none => .error .validationError
  | some ty =>
    if ty.isPlain then
      if r.extra ≠ [] ∨ r.time.isSome then .error .validationError
      else
        match r.name with
        | none => .error .validationError
        | some nm => .ok (.props ty nm)
    else
      if r.extra ≠ [] then .error .validationError
      else
        match r.name, r.time with
        | some nm, some tv => (to_time tv).map (fun t => .propsWithTime ty nm t)
        | _, _ => .error .validationError

/-- Input to a `DayPropsLike` parameter: an already-constructed model
instance (accepted as-is) or a raw mapping (validated). -/
inductive DayPropsInput where
  | obj (p : DayPropsLike)
  | raw (r : RawDayProps)
  deriving DecidableEq, Repr

/-- Validation of a `DayPropsLike` argument at a `validate_call` boundary. -/
def validateDayPropsInput : DayPropsInput → Except PErr DayPropsLike
  | .obj p => .ok p
  | .raw r => validateDayProps r

/-- An element of a tags collection: a string, or some non-string value
(the shapes the repository's tests exercise use integers). -/
inductive TagVal where
  | str (s : String)
  | nonStr (n : Int)
  deriving DecidableEq, Repr

/-- A value offered for the `Tags` annotation
(`Union[Collection[str], None]`): `None`, a collection of elements, or a
value that is not a collection at all (e.g. a float). -/
inductive TagsInput where
  | noneV
  | coll (xs : List TagVal)
  | notColl
  deriving DecidableEq, Repr

/-- Validation of a `Tags` value: `None` passes through, a collection must
consist of strings only, anything else fails (see the module comment on the
`Tags` annotation). -/
def validateTags : TagsInput → Except PErr (Option (List String))
  | .noneV => .ok none
  | .notColl => .error .validationError
  | .coll xs =>
    match xs.mapM (fun x => match x with | .str s => some s | .nonStr _ => none) with
    | some ss => .ok (some ss)
    | none => .error .validationError

/-- `sorted(set(tags))` on a list of strings: sort ascending and drop
duplicates. -/
def sortDedupStr (l : List String) : List String :=
  (List.dedup l).insertionSort (· ≤ ·)

/-- Python `str.strip()`: drop whitespace from both ends of a string. -/
def pyStrip (s : String) : String :=
  String.mk (((s.data.dropWhile Char.isWhitespace).reverse.dropWhile
    Char.isWhitespace).reverse)

/-- The comment branch of `DateMeta._canonicalize`: strip surrounding
whitespace and turn an empty result into `None`. -/
def canonComment : Option String → Option String
  | none => none
  | some c => let s := pyStrip c; if s = "" then none else some s

/-- Embedding of the `DateMeta` model. -/
structure DateMeta where
  tags : List String
  comment : Option String
  deriving DecidableEq, Repr

/-- `DateMeta._canonicalize`: sort the tags and drop duplicates, strip the
comment. -/
def DateMeta.canonicalize (m : DateMeta) : DateMeta :=
  ⟨sortDedupStr m.tags, canonComment m.comment⟩

/-- `DateMeta.__len__`. -/
def DateMeta.size (m : DateMeta) : Nat :=
  m.tags.length + (if m.comment.isSome then 1 else 0)

/-- A `DateMeta` in canonical form (the state every stored instance is
left in by its validator). -/
def DateMeta.canonical (m : DateMeta) : Prop :=
  sortDedupStr m.tags = m.tags ∧ canonComment m.comment = m.comment

instance (m : DateMeta) : Decidable m.canonical := by
  unfold DateMeta.canonical; infer_instance

/-- Python `dict` with `Timestamp` keys, as an insertion-ordered association
list with unique keys. -/
abbrev Dict (β : Type) := List (Timestamp × β)

/-- `d[k]`-style lookup. -/
def dictLookup {β : Type} (l : Dict β) (k : Timestamp) : Option β :=
  match l with
  | [] => none
  | p :: ps => if p.1 = k then some p.2 else dictLookup ps k

/-- `d[k] = v`: update in place when the key exists (keeping its position),
otherwise append at the end — Python dict item assignment. -/
def dictInsert {β : Type} (l : Dict β) (k : Timestamp) (v : β) : Dict β :=
  match l with
  | [] => [(k, v)]
  | p :: ps => if p.1 = k then (k, v) :: ps else p :: dictInsert ps k v

/-- `d.pop(k, None)` / `del d[k]`: drop the entry for `k`, if any. -/
def dictRemove {β : Type} (l : Dict β) (k : Timestamp) : Dict β :=
  match l with
  | [] => []
  | p :: ps => if p.1 = k then ps else p :: dictRemove ps k

/-- `d.keys()`, in iteration order. -/
def dictKeys {β : Type} (l : Dict β) : List Timestamp :=
  l.map (fun p => p.1)

/-- Ordering of dict entries by key, used by `sorted(..., key=lambda i: i[0])`. -/
def keyLe {β : Type} (p q : Timestamp × β) : Prop := p.1 ≤ q.1

instance {β : Type} : DecidableRel (keyLe (β := β)) := by
  intro p q; unfold keyLe; infer_instance

instance {β : Type} : IsTotal (Timestamp × β) keyLe :=
  ⟨fun p q => Int.le_total p.1 q.1⟩

instance {β : Type} : IsTrans (Timestamp × β) keyLe :=
  ⟨fun _ _ _ h h' => le_trans h h'⟩

/-- `sorted(d.items(), key=lambda i: i[0])`: stable sort of the entries by
ascending key. -/
def sortByKey {β : Type} (l : Dict β) : Dict β :=
  l.insertionSort keyLe

/-- `sorted(set(l))` on timestamps: deduplicate, then sort ascending. -/
def sortDedup (l : List Timestamp) : List Timestamp :=
  (List.dedup l).insertionSort (· ≤ ·)

/-- Embedding of the `ChangeSet` model: days to add, days to remove, and
per-date metadata. -/
structure ChangeSet where
  add : Dict DayPropsLike
  remove : List Timestamp
  meta : Dict DateMeta
  deriving DecidableEq, Repr

/-- `ChangeSet()`: the empty changeset. -/
def ChangeSet.empty : ChangeSet := ⟨[], [], []⟩

/-- `ChangeSet._canonicalize`: sort `add` by date, sort `remove` by date and
drop duplicates, sort `meta` by date.  (The values stored in `add` and
`meta` are not touched.) -/
def ChangeSet.canonicalize (cs : ChangeSet) : ChangeSet :=
  ⟨sortByKey cs.add, sortDedup cs.remove, sortByKey cs.meta⟩

/-- `self.model_validate(self, strict=True)` on an existing instance: the
fields are not re-validated, but the after validator `_canonicalize` runs on
the instance; it only sorts and deduplicates and therefore cannot raise. -/
def ChangeSet.modelValidate (cs : ChangeSet) : Except PErr ChangeSet :=
  .ok cs.canonicalize

/-- `ChangeSet.__len__`. -/
def ChangeSet.length (cs : ChangeSet) : Nat :=
  cs.add.length + cs.remove.length + cs.meta.length

/-- The result of calling a mutating method: the exception that propagated
(if any) together with the state of the changeset after the call. -/
structure OpResult where
  err : Option PErr
  state : ChangeSet
  deriving DecidableEq, Repr

/-- `ChangeSet.add_day`: validate the arguments, reject a date that is
already a key of `add` with a `ValueError`, otherwise insert and re-run
whole-object validation; a validation failure would roll the insertion back
(`prev` is necessarily `None` here, so the rollback deletes the key). -/
def ChangeSet.add_day (cs : ChangeSet) (date : TsInput) (props : DayPropsInput) :
    OpResult :=
  match to_timestamp date with
  | .error e => ⟨some e, cs⟩
  | .ok d =>
    match validateDayPropsInput props with
    | .error e => ⟨some e, cs⟩
    | .ok p =>
      if (dictLookup cs.add d).isSome then
        ⟨some (.dupAdd d), cs⟩
      else
        let cs1 : ChangeSet := { cs with add := dictInsert cs.add d p }
        match cs1.modelValidate with
        | .ok cs2 => ⟨none, cs2⟩
        | .error e => ⟨some e, { cs1 with add := dictRemove cs1.add d }⟩

/-- `list.remove(x)`: drop the first occurrence of `x`. -/
def listRemoveFirst (l : List Timestamp) (x : Timestamp) : List Timestamp :=
  match l with
  | [] => []
  | y :: ys => if y = x then ys else y :: listRemoveFirst ys x

/-- `ChangeSet.remove_day`: append the date to `remove` and re-run
whole-object validation; a validation failure would remove the appended
date again. -/
def ChangeSet.remove_day (cs : ChangeSet) (date : TsInput) : OpResult :=
  match to_timestamp date with
  | .error e => ⟨some e, cs⟩
  | .ok d =>
    let cs1 : ChangeSet := { cs with remove := cs.remove ++ [d] }
    match cs1.modelValidate with
    | .ok cs2 => ⟨none, cs2⟩
    | .error e => ⟨some e, { cs1 with remove := listRemoveFirst cs1.remove d }⟩

/-- `ChangeSet.set_tags`: validate the arguments, fetch or create the
metadata record for the date, assign the new tags (the assignment re-runs
`DateMeta._canonicalize`, which sorts and deduplicates the tags and
re-strips the comment), and finally store the record back when its size is
positive or purge the date otherwise.  With the argument validation of
`Tags` already passed, the assignment cannot fail, so the inner
restore-and-re-raise branch of the source is unreachable. -/
def ChangeSet.set_tags (cs : ChangeSet) (date : TsInput) (tags : TagsInput) :
    OpResult :=
  match to_timestamp date with
  | .error e => ⟨some e, cs⟩
  | .ok d =>
    match validateTags tags with
    | .error e => ⟨some e, cs⟩
    | .ok ts =>
      let m := (dictLookup cs.meta d).getD ⟨[], none⟩
      let m' : DateMeta := DateMeta.canonicalize ⟨(ts.getD []), m.comment⟩
      if 0 < m'.size then
        ⟨none, { cs with meta := dictInsert cs.meta d m' }⟩
      else
        ⟨none, { cs with meta := dictRemove cs.meta d }⟩

/-- `ChangeSet.all_days`: the sorted union of the dates of `add` and
`remove`, optionally also of `meta`, returned as an (immutable) ordered
tuple. -/
def ChangeSet.all_days (cs : ChangeSet) (includeMeta : Bool) : List Timestamp :=
  sortDedup (dictKeys cs.add ++ cs.remove ++ if includeMeta then dictKeys cs.meta else [])

/-- A raw mapping offered to the `DateMeta` validator: the optional `tags`
and `comment` entries (an absent `tags` key behaves like the default `[]`). -/
structure RawDateMeta where
  tags : TagsInput
  comment : Option String
  deriving DecidableEq, Repr

/-- Validation of a raw `DateMeta` mapping: the `tags` value is validated
against the `Tags` annotation, then `_canonicalize` runs. -/
def validateDateMeta (r : RawDateMeta) : Except PErr DateMeta :=
  match validateTags r.tags with
  | .error e => .error e
  | .ok ts => .ok (DateMeta.canonicalize ⟨ts.getD [], r.comment⟩)

/-- The plain nested-mapping form of a changeset: date-like keys with
day-properties shapes under `add`, a sequence of date-like values under
`remove`, and date-like keys with metadata shapes under `meta`. -/
structure RawChangeSet where
  add : List (TsInput × DayPropsInput)
  remove : List TsInput
  meta : List (TsInput × RawDateMeta)
  deriving DecidableEq, Repr

/-- Build a Python dict from validated key/value pairs (later entries for an
equal key overwrite earlier ones). -/
def dictBuild {β : Type} (l : List (Timestamp × β)) : Dict β :=
  l.foldl (fun acc p => dictInsert acc p.1 p.2) []

/-- `ChangeSet.model_validate` on a plain nested mapping: every key and
value of the three collections is validated (the first failure propagates),
then `_canonicalize` produces the canonical form. -/
def ChangeSet.parse (r : RawChangeSet) : Except PErr ChangeSet := do
  let addPairs ← r.add.mapM (fun p => do
    let d ← to_timestamp p.1
    let v ← validateDayPropsInput p.2
    pure (d, v))
  let removeL ← r.remove.mapM to_timestamp
  let metaPairs ← r.meta.mapM (fun p => do
    let d ← to_timestamp p.1
    let v ← validateDateMeta p.2
    pure (d, v))
  pure (ChangeSet.canonicalize ⟨dictBuild addPairs, removeL, dictBuild metaPairs⟩)

/-- `model_dump` of a day-properties value: the plain shape emits `type` and
`name`, the timed shape additionally emits its `time` as a `dt.time`. -/
def serializeProps : DayPropsLike → RawDayProps
  | .props ty nm => ⟨some ty, some nm, none, []⟩
  | .propsWithTime ty nm t => ⟨some ty, some nm, some (.timeObj t), []⟩

/-- `model_dump` of a metadata record: the tags as a list of strings and
the comment as-is. -/
def serializeMeta (m : DateMeta) : RawDateMeta :=
  ⟨.coll (m.tags.map .str), m.comment⟩

/-- `model_dump` of a changeset: the three collections in iteration order,
with `pd.Timestamp` keys. -/
def ChangeSet.serialize (cs : ChangeSet) : RawChangeSet :=
  ⟨cs.add.map (fun p => (.ts p.1, .raw (serializeProps p.2))),
   cs.remove.map .ts,
   cs.meta.map (fun p => (.ts p.1, serializeMeta p.2))⟩

/-- Python `==` on dicts: same cardinality and every entry of one is an
entry of the other (order-independent). -/
def dictBEq {β : Type} [DecidableEq β] (a b : Dict β) : Bool :=
  a.length == b.length && a.all (fun p => dictLookup b p.1 == some p.2)

/-- `ChangeSet.__eq__`: component-wise equality of `add`, `remove` and
`meta` (dict comparison for `add` and `meta`, list comparison for
`remove`). -/
def ChangeSet.pyEq (a b : ChangeSet) : Bool :=
  dictBEq a.add b.add && a.remove == b.remove && dictBEq a.meta b.meta

/-- A changeset in fully canonical form: `add` strictly ascending by key,
`remove` strictly ascending, `meta` strictly ascending by key. -/
def ChangeSet.canonical (cs : ChangeSet) : Prop :=
  List.Pairwise (fun p q => p.1 < q.1) cs.add ∧
  List.Pairwise (· < ·) cs.remove ∧
  List.Pairwise (fun p q => p.1 < q.1) cs.meta

/-- A structurally valid changeset state: what every changeset produced by
the validation layer satisfies at all times.  `add` is strictly ascending by
key and holds only well-formed day properties, `remove` is strictly
ascending, `meta` has pairwise-distinct keys (not necessarily in order, see
`set_tags`) and holds only canonical metadata records. -/
def ChangeSet.valid (cs : ChangeSet) : Prop :=
  List.Pairwise (fun p q => p.1 < q.1) cs.add ∧
  (∀ p ∈ cs.add, DayPropsLike.wf p.2 = true) ∧
  List.Pairwise (· < ·) cs.remove ∧
  List.Pairwise (fun p q => p.1 ≠ q.1) cs.meta ∧
  (∀ p ∈ cs.meta, DateMeta.canonical p.2)

/-! ### Helper lemmas about sorting, deduplication and dict operations -/

section SortLemmas

variable {α : Type} [LinearOrder α]

theorem mem_sortedSet [DecidableEq α] {l : List α} {x : α} :
    x ∈ (List.dedup l).insertionSort (· ≤ ·) ↔ x ∈ l := by
  rw [List.mem_insertionSort, List.mem_dedup]

theorem sortedSet_strict [DecidableEq α] (l : List α) :
    ((List.dedup l).insertionSort (· ≤ ·)).Pairwise (· < ·) := by
  have hs : ((List.dedup l).insertionSort (· ≤ ·)).Sorted (· ≤ ·) :=
    List.sorted_insertionSort _ _
  have hn : ((List.dedup l).insertionSort (· ≤ ·)).Nodup :=
    ((List.perm_insertionSort _ _).nodup_iff).2 (List.nodup_dedup l)
  exact hs.lt_of_le hn

theorem sortedSet_eq_self [DecidableEq α] {l : List α} (h : l.Pairwise (· < ·)) :
    (List.dedup l).insertionSort (· ≤ ·) = l := by
  have hn : l.Nodup := h.imp ne_of_lt
  rw [hn.dedup]
  exact List.Sorted.insertionSort_eq (List.Sorted.le_of_lt h)

theorem strictSorted_eq_of_mem_iff [DecidableEq α] {l₁ l₂ : List α}
    (h₁ : l₁.Pairwise (· < ·)) (h₂ : l₂.Pairwise (· < ·))
    (hm : ∀ x, x ∈ l₁ ↔ x ∈ l₂) : l₁ = l₂ := by
  haveI : IsAntisymm α (· < ·) := ⟨fun a b h h' => absurd h' (lt_asymm h)⟩
  have hp : l₁.Perm l₂ :=
    (List.perm_ext_iff_of_nodup (h₁.imp ne_of_lt) (h₂.imp ne_of_lt)).2 hm
  exact List.eq_of_perm_of_sorted hp h₁ h₂

end SortLemmas

theorem mem_sortDedup {l : List Timestamp} {x : Timestamp} :
    x ∈ sortDedup l ↔ x ∈ l := mem_sortedSet

theorem sortDedup_strict (l : List Timestamp) : (sortDedup l).Pairwise (· < ·) :=
  sortedSet_strict l

theorem sortDedup_eq_self {l : List Timestamp} (h : l.Pairwise (· < ·)) :
    sortDedup l = l := sortedSet_eq_self h

theorem mem_sortDedupStr {l : List String} {x : String} :
    x ∈ sortDedupStr l ↔ x ∈ l := mem_sortedSet

theorem sortDedupStr_strict (l : List String) :
    (sortDedupStr l).Pairwise (· < ·) := sortedSet_strict l

theorem sortDedupStr_eq_self {l : List String} (h : l.Pairwise (· < ·)) :
    sortDedupStr l = l := sortedSet_eq_self h

section DictLemmas

variable {β : Type}

/-- Keys of a dict are pairwise distinct. -/
def keysNodup (l : Dict β) : Prop :=
  l.Pairwise (fun p q => p.1 ≠ q.1)

theorem dictLookup_insert_self (l : Dict β) (k : Timestamp) (v : β) :
    dictLookup (dictInsert l k v) k = some v := by
  induction l with
  | nil => simp [dictInsert, dictLookup]
  | cons p ps ih =>
    by_cases h : p.1 = k
    · simp [dictInsert, dictLookup, h]
    · simp [dictInsert, dictLookup, h, ih]

theorem dictLookup_insert_ne (l : Dict β) {k k' : Timestamp} (v : β)
    (h : k' ≠ k) : dictLookup (dictInsert l k v) k' = dictLookup l k' := by
  have hkk : ¬(k = k') := fun hh => h hh.symm
  induction l with
  | nil =>
    show (if k = k' then some v else none) = none
    rw [if_neg hkk]
  | cons p ps ih =>
    by_cases hp : p.1 = k
    · show dictLookup (if p.1 = k then (k, v) :: ps else p :: dictInsert ps k v) k' = _
      rw [if_pos hp]
      show (if k = k' then some v else dictLookup ps k') = _
      rw [if_neg hkk]
      show _ = (if p.1 = k' then some p.2 else dictLookup ps k')
      rw [if_neg (show ¬(p.1 = k') from fun hh => hkk (hp.symm.trans hh))]
    · show dictLookup (if p.1 = k then (k, v) :: ps else p :: dictInsert ps k v) k' = _
      rw [if_neg hp]
      show (if p.1 = k' then some p.2 else dictLookup (dictInsert ps k v) k') = _
      show _ = (if p.1 = k' then some p.2 else dictLookup ps k')
      rw [ih]

theorem dictLookup_eq_none_of_forall {l : Dict β} {k : Timestamp}
    (h : ∀ q ∈ l, q.1 ≠ k) : dictLookup l k = none := by
  induction l with
  | nil => rfl
  | cons p ps ih =>
    show (if p.1 = k then some p.2 else dictLookup ps k) = none
    rw [if_neg (h p (List.mem_cons_self p ps))]
    exact ih (fun q hq => h q (List.mem_cons_of_mem _ hq))

theorem dictLookup_remove_ne (l : Dict β) {k k' : Timestamp} (h : k' ≠ k) :
    dictLookup (dictRemove l k) k' = dictLookup l k' := by
  induction l with
  | nil => rfl
  | cons p ps ih =>
    by_cases hp : p.1 = k
    · show dictLookup (if p.1 = k then ps else p :: dictRemove ps k) k' = _
      rw [if_pos hp]
      show _ = (if p.1 = k' then some p.2 else dictLookup ps k')
      rw [if_neg (show ¬(p.1 = k') from fun hh => h (hh.symm.trans hp))]
    · show dictLookup (if p.1 = k then ps else p :: dictRemove ps k) k' = _
      rw [if_neg hp]
      show (if p.1 = k' then some p.2 else dictLookup (dictRemove ps k) k') = _
      show _ = (if p.1 = k' then some p.2 else dictLookup ps k')
      rw [ih]

theorem dictLookup_remove_self (l : Dict β) {k : Timestamp} (hn : keysNodup l) :
    dictLookup (dictRemove l k) k = none := by
  induction l with
  | nil => rfl
  | cons p ps ih =>
    rcases List.pairwise_cons.1 hn with ⟨hk, hps⟩
    by_cases hp : p.1 = k
    · show dictLookup (if p.1 = k then ps else p :: dictRemove ps k) k = none
      rw [if_pos hp]
      exact dictLookup_eq_none_of_forall (fun q hq => hp ▸ (hk q hq).symm)
    · show dictLookup (if p.1 = k then ps else p :: dictRemove ps k) k = none
      rw [if_neg hp]
      show (if p.1 = k then some p.2 else dictLookup (dictRemove ps k) k) = none
      rw [if_neg hp]
      exact ih hps

theorem mem_of_dictLookup_eq_some {l : Dict β} {k : Timestamp} {v : β}
    (h : dictLookup l k = some v) : (k, v) ∈ l := by
  induction l with
  | nil => simp [dictLookup] at h
  | cons p ps ih =>
    by_cases hp : p.1 = k
    · subst hp
      simp only [dictLookup, if_pos rfl] at h
      injection h with h
      subst h
      rw [Prod.mk.eta]
      exact List.mem_cons_self p ps
    · simp only [dictLookup, if_neg hp] at h
      exact List.mem_cons_of_mem _ (ih h)

theorem dictLookup_eq_some_of_mem {l : Dict β} {k : Timestamp} {v : β}
    (hn : keysNodup l) (h : (k, v) ∈ l) : dictLookup l k = some v := by
  induction l with
  | nil => simp at h
  | cons p ps ih =>
    rcases List.pairwise_cons.1 hn with ⟨hk, hps⟩
    rcases List.mem_cons.1 h with h | h
    · subst h; simp [dictLookup]
    · have : p.1 ≠ k := by
        have := hk _ h
        simpa using this
      simp [dictLookup, this, ih hps h]

theorem dictInsert_eq_append {l : Dict β} {k : Timestamp} (v : β)
    (h : dictLookup l k = none) : dictInsert l k v = l ++ [(k, v)] := by
  induction l with
  | nil => rfl
  | cons p ps ih =>
    have hp : ¬(p.1 = k) := by
      intro hh
      rw [dictLookup, if_pos hh] at h
      exact Option.noConfusion h
    rw [dictLookup, if_neg hp] at h
    show (if p.1 = k then (k, v) :: ps else p :: dictInsert ps k v) = _
    rw [if_neg hp, ih h]
    rfl

theorem mem_dictInsert {l : Dict β} {k : Timestamp} {v : β} {q : Timestamp × β}
    (hq : q ∈ dictInsert l k v) : q = (k, v) ∨ q ∈ l := by
  induction l with
  | nil => simpa [dictInsert] using hq
  | cons p ps ih =>
    by_cases hp : p.1 = k
    · rw [dictInsert, if_pos hp] at hq
      rcases List.mem_cons.1 hq with hq | hq
      · exact Or.inl hq
      · exact Or.inr (List.mem_cons_of_mem _ hq)
    · rw [dictInsert, if_neg hp] at hq
      rcases List.mem_cons.1 hq with hq | hq
      · exact Or.inr (hq ▸ List.mem_cons_self _ _)
      · rcases ih hq with hq | hq
        · exact Or.inl hq
        · exact Or.inr (List.mem_cons_of_mem _ hq)

theorem keysNodup_insert {l : Dict β} {k : Timestamp} (v : β)
    (hn : keysNodup l) : keysNodup (dictInsert l k v) := by
  induction l with
  | nil => simp [dictInsert, keysNodup]
  | cons p ps ih =>
    rcases List.pairwise_cons.1 hn with ⟨hk, hps⟩
    by_cases hp : p.1 = k
    · show keysNodup (if p.1 = k then (k, v) :: ps else p :: dictInsert ps k v)
      rw [if_pos hp]
      exact List.pairwise_cons.2 ⟨fun q hq => hp ▸ hk q hq, hps⟩
    · show keysNodup (if p.1 = k then (k, v) :: ps else p :: dictInsert ps k v)
      rw [if_neg hp]
      refine List.pairwise_cons.2 ⟨?_, ih hps⟩
      intro q hq
      rcases mem_dictInsert hq with hq | hq
      · rw [hq]
        exact hp
      · exact hk q hq

theorem mem_dictRemove {l : Dict β} {k : Timestamp} {q : Timestamp × β}
    (hq : q ∈ dictRemove l k) : q ∈ l := by
  induction l with
  | nil => simp [dictRemove] at hq
  | cons p ps ih =>
    by_cases hp : p.1 = k
    · rw [dictRemove, if_pos hp] at hq
      exact List.mem_cons_of_mem _ hq
    · rw [dictRemove, if_neg hp] at hq
      rcases List.mem_cons.1 hq with hq | hq
      · exact hq ▸ List.mem_cons_self _ _
      · exact List.mem_cons_of_mem _ (ih hq)

theorem keysNodup_remove {l : Dict β} (k : Timestamp)
    (hn : keysNodup l) : keysNodup (dictRemove l k) := by
  induction l with
  | nil => exact hn
  | cons p ps ih =>
    rcases List.pairwise_cons.1 hn with ⟨hk, hps⟩
    by_cases hp : p.1 = k
    · show keysNodup (if p.1 = k then ps else p :: dictRemove ps k)
      rw [if_pos hp]
      exact hps
    · show keysNodup (if p.1 = k then ps else p :: dictRemove ps k)
      rw [if_neg hp]
      exact List.pairwise_cons.2 ⟨fun q hq => hk q (mem_dictRemove hq), ih hps⟩

theorem keysNodup_of_perm {l l' : Dict β} (hp : l.Perm l')
    (hn : keysNodup l) : keysNodup l' :=
  (hp.pairwise_iff (fun h => h.symm)).1 hn

theorem dictLookup_eq_of_perm {l l' : Dict β} (hn : keysNodup l)
    (hp : l.Perm l') (k : Timestamp) : dictLookup l k = dictLookup l' k := by
  have hn' : keysNodup l' := keysNodup_of_perm hp hn
  rcases h : dictLookup l k with _ | v
  · rcases h' : dictLookup l' k with _ | v'
    · rfl
    · have := dictLookup_eq_some_of_mem hn (hp.mem_iff.2 (mem_of_dictLookup_eq_some h'))
      rw [h] at this
      exact Option.noConfusion this
  · exact (dictLookup_eq_some_of_mem hn' (hp.mem_iff.1 (mem_of_dictLookup_eq_some h))).symm

theorem sortByKey_perm (l : Dict β) : (sortByKey l).Perm l :=
  List.perm_insertionSort _ _

theorem sortByKey_sorted (l : Dict β) : (sortByKey l).Pairwise keyLe :=
  List.sorted_insertionSort _ _

theorem sortByKey_eq_self {l : Dict β} (h : l.Pairwise keyLe) :
    sortByKey l = l :=
  List.Sorted.insertionSort_eq h

theorem sortByKey_strict {l : Dict β} (hn : keysNodup l) :
    (sortByKey l).Pairwise (fun p q => p.1 < q.1) := by
  have hs := sortByKey_sorted l
  have hn' : keysNodup (sortByKey l) :=
    keysNodup_of_perm (sortByKey_perm l).symm hn
  exact hs.imp₂ (fun p q hle hne => lt_of_le_of_ne hle hne) hn'

theorem strictKeys_pairwise_keyLe {l : Dict β}
    (h : l.Pairwise (fun p q => p.1 < q.1)) : l.Pairwise keyLe :=
  h.imp (fun hpq => le_of_lt hpq)

theorem strictKeys_keysNodup {l : Dict β}
    (h : l.Pairwise (fun p q => p.1 < q.1)) : keysNodup l :=
  h.imp (fun hpq => ne_of_lt hpq)

theorem sortByKey_eq_of_strict {l : Dict β}
    (h : l.Pairwise (fun p q => p.1 < q.1)) : sortByKey l = l :=
  sortByKey_eq_self (strictKeys_pairwise_keyLe h)

theorem dictLookup_sortByKey {l : Dict β} (hn : keysNodup l) (k : Timestamp) :
    dictLookup (sortByKey l) k = dictLookup l k :=
  (dictLookup_eq_of_perm hn (sortByKey_perm l).symm k).symm

theorem dictBuild_eq_self {l : Dict β} (hn : keysNodup l) : dictBuild l = l := by
  suffices h : ∀ (acc : Dict β), keysNodup (acc ++ l) →
      l.foldl (fun a p => dictInsert a p.1 p.2) acc = acc ++ l by
    simpa using h [] (by simpa using hn)
  clear hn
  induction l with
  | nil => intro acc _; simp
  | cons p ps ih =>
    intro acc hacc
    have hlook : dictLookup acc p.1 = none := by
      apply dictLookup_eq_none_of_forall
      intro q hq
      have := (List.pairwise_append.1 hacc).2.2 q hq p (List.mem_cons_self p ps)
      exact this
    show List.foldl _ (dictInsert acc p.1 p.2) ps = acc ++ p :: ps
    rw [dictInsert_eq_append p.2 hlook]
    have hacc' : keysNodup ((acc ++ [(p.1, p.2)]) ++ ps) := by
      have : (acc ++ [(p.1, p.2)]) ++ ps = acc ++ ((p.1, p.2) :: ps) := by
        simp
      rw [this, Prod.mk.eta]
      exact hacc
    rw [ih (acc ++ [(p.1, p.2)]) hacc']
    simp

theorem keysNodup_dictBuild (l : List (Timestamp × β)) : keysNodup (dictBuild l) := by
  suffices h : ∀ (acc : Dict β), keysNodup acc →
      keysNodup (l.foldl (fun a p => dictInsert a p.1 p.2) acc) by
    exact h [] List.Pairwise.nil
  induction l with
  | nil => intro acc hacc; exact hacc
  | cons p ps ih =>
    intro acc hacc
    exact ih _ (keysNodup_insert p.2 hacc)

theorem dictBEq_of_nodup [DecidableEq β] {a b : Dict β}
    (hlen : a.length = b.length)
    (hmem : ∀ p ∈ a, dictLookup b p.1 = some p.2) : dictBEq a b = true := by
  unfold dictBEq
  rw [Bool.and_eq_true]
  refine ⟨by simpa using hlen, ?_⟩
  rw [List.all_eq_true]
  intro p hp
  simpa using hmem p hp

theorem dictBEq_refl [DecidableEq β] {a : Dict β} (hn : keysNodup a) :
    dictBEq a a = true :=
  dictBEq_of_nodup rfl (fun _ hp => dictLookup_eq_some_of_mem hn hp)

theorem dictBEq_sortByKey [DecidableEq β] {a : Dict β} (hn : keysNodup a) :
    dictBEq a (sortByKey a) = true :=
  dictBEq_of_nodup (sortByKey_perm a).symm.length_eq
    (fun p hp => by
      rw [dictLookup_sortByKey hn]
      exact dictLookup_eq_some_of_mem hn hp)

end DictLemmas

/-! ### Facts about canonicalization and the mutating operations -/

theorem canonicalize_canonical {cs : ChangeSet}
    (ha : keysNodup cs.add) (hm : keysNodup cs.meta) :
    cs.canonicalize.canonical :=
  ⟨sortByKey_strict ha, sortDedup_strict _, sortByKey_strict hm⟩

theorem canonical_canonicalize_eq {cs : ChangeSet} (h : cs.canonical) :
    cs.canonicalize = cs := by
  rcases h with ⟨ha, hr, hm⟩
  show (⟨sortByKey cs.add, sortDedup cs.remove, sortByKey cs.meta⟩ : ChangeSet) = cs
  rw [sortByKey_eq_of_strict ha, sortDedup_eq_self hr, sortByKey_eq_of_strict hm]

theorem remove_day_ok (cs : ChangeSet) {v : TsInput} {d : Timestamp}
    (hv : to_timestamp v = .ok d) :
    cs.remove_day v =
      ⟨none, ChangeSet.canonicalize { cs with remove := cs.remove ++ [d] }⟩ := by
  unfold ChangeSet.remove_day
  rw [hv]
  rfl

theorem set_tags_ok (cs : ChangeSet) {v : TsInput} {d : Timestamp}
    {ti : TagsInput} {ts : Option (List String)}
    (hv : to_timestamp v = .ok d) (ht : validateTags ti = .ok ts) :
    cs.set_tags v ti =
      (if 0 < (DateMeta.canonicalize
            ⟨ts.getD [], ((dictLookup cs.meta d).getD ⟨[], none⟩).comment⟩).size then
        ⟨none, { cs with meta := dictInsert cs.meta d (DateMeta.canonicalize
            ⟨ts.getD [], ((dictLookup cs.meta d).getD ⟨[], none⟩).comment⟩) }⟩
      else
        ⟨none, { cs with meta := dictRemove cs.meta d }⟩) := by
  unfold ChangeSet.set_tags
  rw [hv, ht]

/-! ### Claims -/

/-- C8: for every changeset, `all_days` returns a strictly ascending (hence
de-duplicated, ordered) sequence whose members are exactly the union of the
keys of `add` and the elements of `remove`, plus the keys of `meta` exactly
when `include_meta` is true. -/
theorem C8_all_days_union (cs : ChangeSet) (includeMeta : Bool) :
    (cs.all_days includeMeta).Pairwise (· < ·) ∧
    ∀ d, d ∈ cs.all_days includeMeta ↔
      (d ∈ dictKeys cs.add ∨ d ∈ cs.remove ∨
        (includeMeta = true ∧ d ∈ dictKeys cs.meta)) := by
  constructor
  · exact sortDedup_strict _
  · intro d
    rw [ChangeSet.all_days, mem_sortDedup]
    cases includeMeta <;> simp [or_assoc]

/-- C9 (counterexample to the claim as stated): a point-in-time input (noon
of day 0) and the bare date it falls on are not normalized to the same key;
`_to_timestamp` keeps the time of day, and `remove_day` therefore records
the two inputs as two distinct dates. -/
theorem C9_counterexample :
    to_timestamp (.datetimeStr 0 43200000000000) = .ok 43200000000000 ∧
    to_timestamp (.dateStr 0) = .ok 0 ∧
    (43200000000000 : Int) ≠ 0 ∧
    ((ChangeSet.empty.remove_day (.datetimeStr 0 43200000000000)).state.remove_day
        (.dateStr 0)).state.remove.length = 2 := by
  refine ⟨rfl, rfl, by decide, by decide⟩

/-- C9 (amended): every date-like input accepted by the changeset operations
is converted to a `pd.Timestamp` before use as a key — strings are parsed,
native dates map to midnight of their day, timestamps pass through
unchanged — but no normalisation to calendar-day granularity takes place: a
point-in-time input with a nonzero time of day denotes a key different from
the bare date it falls on. -/
theorem C9_to_timestamp_conversion (d n : Int) (h1 : 0 < n) :
    to_timestamp (.dateObj d) = .ok (d * nanosPerDay) ∧
    to_timestamp (.dateStr d) = .ok (d * nanosPerDay) ∧
    (∀ t, to_timestamp (.ts t) = .ok t) ∧
    (∀ t, to_timestamp (.datetimeStr d n) = .ok t → t ≠ d * nanosPerDay) := by
  refine ⟨rfl, rfl, fun t => rfl, fun t hteq => ?_⟩
  injection hteq with hteq
  intro hc
  have h2 : d * nanosPerDay + n = d * nanosPerDay + 0 := by
    rw [add_zero]
    exact hteq.trans hc
  exact absurd (add_left_cancel h2) (ne_of_gt h1)

/-- C9 witness: concrete instantiation at day 0, one nanosecond past
midnight. -/
theorem C9_to_timestamp_conversion_witness :
    to_timestamp (.dateObj 0) = .ok (0 * nanosPerDay) ∧
    to_timestamp (.dateStr 0) = .ok (0 * nanosPerDay) ∧
    (∀ t, to_timestamp (.ts t) = .ok t) ∧
    (∀ t, to_timestamp (.datetimeStr 0 1) = .ok t → t ≠ 0 * nanosPerDay) :=
  C9_to_timestamp_conversion 0 1 (by decide)

/-- C2: calling `add_day` for a date that is already a key of `add`, with
any (valid) day properties — in particular a different day type — raises the
duplicate-add `ValueError`, and the changeset, in particular its `add`
mapping, is left exactly as it was before the call. -/
theorem C2_add_day_duplicate (cs : ChangeSet) (v : TsInput) (d : Timestamp)
    (p0 p2 : DayPropsLike)
    (hv : to_timestamp v = .ok d)
    (hmem : dictLookup cs.add d = some p0) :
    cs.add_day v (.obj p2) = ⟨some (.dupAdd d), cs⟩ ∧
    (cs.add_day v (.obj p2)).state.add = cs.add := by
  have h : cs.add_day v (.obj p2) = ⟨some (.dupAdd d), cs⟩ := by
    unfold ChangeSet.add_day
    rw [hv]
    show (if (dictLookup cs.add d).isSome then _ else _) = _
    rw [hmem]
    rfl
  exact ⟨h, by rw [h]⟩

/-- C2 witness: a changeset holding a holiday on day 0 rejects a special
open for the same day and is left unchanged. -/
theorem C2_add_day_duplicate_witness :
    (ChangeSet.mk [(0, .props .holiday "Holiday")] [] []).add_day (.dateStr 0)
        (.obj (.propsWithTime .special_open "Special Open" ⟨10, 0, 0⟩)) =
      ⟨some (.dupAdd 0), ChangeSet.mk [(0, .props .holiday "Holiday")] [] []⟩ :=
  (C2_add_day_duplicate (ChangeSet.mk [(0, .props .holiday "Holiday")] [] [])
    (.dateStr 0) 0 (.props .holiday "Holiday")
    (.propsWithTime .special_open "Special Open" ⟨10, 0, 0⟩) rfl rfl).1

/-- C3: `remove_day` is idempotent up to canonical form: a second
`remove_day` for the same date succeeds (it never raises because the date is
already listed), leaves the changeset exactly as after the first call, with
the date appearing exactly once in `remove` and contributing one, not two,
to the length of the changeset. -/
theorem C3_remove_day_idempotent (cs : ChangeSet) (v : TsInput) (d : Timestamp)
    (hv : to_timestamp v = .ok d) :
    (cs.remove_day v).err = none ∧
    ((cs.remove_day v).state.remove_day v).err = none ∧
    ((cs.remove_day v).state.remove_day v).state = (cs.remove_day v).state ∧
    ((cs.remove_day v).state.remove_day v).state.remove.count d = 1 ∧
    ((cs.remove_day v).state.remove_day v).state.length =
      (cs.remove_day v).state.length := by
  rw [remove_day_ok cs hv]
  set cs1 : ChangeSet :=
    ChangeSet.canonicalize { cs with remove := cs.remove ++ [d] } with hcs1
  rw [remove_day_ok cs1 hv]
  have hd : d ∈ cs1.remove := by
    rw [hcs1]
    exact mem_sortDedup.2 (List.mem_append.2 (Or.inr (List.mem_cons_self d [])))
  have hstrict : cs1.remove.Pairwise (· < ·) := by
    rw [hcs1]
    exact sortDedup_strict _
  have hremove : sortDedup (cs1.remove ++ [d]) = cs1.remove := by
    apply strictSorted_eq_of_mem_iff (sortDedup_strict _) hstrict
    intro x
    rw [mem_sortDedup, List.mem_append]
    constructor
    · rintro (hx | hx)
      · exact hx
      · rw [List.mem_singleton.1 hx]
        exact hd
    · exact Or.inl
  have hstate : ChangeSet.canonicalize { cs1 with remove := cs1.remove ++ [d] } = cs1 := by
    show (⟨sortByKey cs1.add, sortDedup (cs1.remove ++ [d]), sortByKey cs1.meta⟩ :
        ChangeSet) = cs1
    rw [hremove]
    have ha : sortByKey cs1.add = cs1.add := by
      rw [hcs1]
      exact sortByKey_eq_self (sortByKey_sorted _)
    have hm : sortByKey cs1.meta = cs1.meta := by
      rw [hcs1]
      exact sortByKey_eq_self (sortByKey_sorted _)
    rw [ha, hm]
  refine ⟨rfl, rfl, hstate, ?_, by rw [hstate]⟩
  rw [hstate]
  exact List.count_eq_one_of_mem (hstrict.imp ne_of_lt) hd

/-- C3 witness: removing day 0 twice from the empty changeset. -/
theorem C3_remove_day_idempotent_witness :
    (ChangeSet.empty.remove_day (.dateStr 0)).err = none ∧
    ((ChangeSet.empty.remove_day (.dateStr 0)).state.remove_day (.dateStr 0)).err = none ∧
    ((ChangeSet.empty.remove_day (.dateStr 0)).state.remove_day (.dateStr 0)).state =
      (ChangeSet.empty.remove_day (.dateStr 0)).state ∧
    ((ChangeSet.empty.remove_day (.dateStr 0)).state.remove_day
        (.dateStr 0)).state.remove.count 0 = 1 ∧
    ((ChangeSet.empty.remove_day (.dateStr 0)).state.remove_day (.dateStr 0)).state.length =
      (ChangeSet.empty.remove_day (.dateStr 0)).state.length :=
  C3_remove_day_idempotent ChangeSet.empty (.dateStr 0) 0 rfl

/-- C1 (counterexample to the claim as stated): `set_tags` does not re-run
the whole-object canonicalization, so after two successful `set_tags` calls
— first for day 1, then for day 0 — the `meta` mapping iterates in insertion
order, day 1 before day 0, which is not ascending date order. -/
theorem C1_counterexample :
    (ChangeSet.empty.set_tags (.dateStr 1) (.coll [.str "foo"])).err = none ∧
    ((ChangeSet.empty.set_tags (.dateStr 1) (.coll [.str "foo"])).state.set_tags
        (.dateStr 0) (.coll [.str "foo"])).err = none ∧
    ¬ ((ChangeSet.empty.set_tags (.dateStr 1) (.coll [.str "foo"])).state.set_tags
        (.dateStr 0) (.coll [.str "foo"])).state.meta.Pairwise
      (fun p q => p.1 < q.1) := by
  refine ⟨rfl, rfl, by decide⟩

/-- C1 (amended): at construction from raw input and after every successful
`add_day` or `remove_day` — which re-run the whole-object validator — the
changeset is fully canonical: `add` iterates in ascending date order,
`remove` is sorted ascending without duplicates, `meta` iterates in
ascending date order.  (`set_tags` mutates `meta` in place without that
re-canonicalization, so it is excluded; see the counterexample.) -/
theorem C1_canonical_after_mutation :
    (∀ (r : RawChangeSet) (cs : ChangeSet), ChangeSet.parse r = .ok cs →
      cs.canonical) ∧
    (∀ (cs : ChangeSet) (v : TsInput) (p : DayPropsInput),
      keysNodup cs.add → keysNodup cs.meta →
      (cs.add_day v p).err = none → (cs.add_day v p).state.canonical) ∧
    (∀ (cs : ChangeSet) (v : TsInput),
      keysNodup cs.add → keysNodup cs.meta →
      (cs.remove_day v).err = none → (cs.remove_day v).state.canonical) := by
  refine ⟨?_, ?_, ?_⟩
  · intro r cs h
    unfold ChangeSet.parse at h
    rcases h1 : r.add.mapM (fun p => do
        let d ← to_timestamp p.1
        let v ← validateDayPropsInput p.2
        pure (d, v)) with _ | addPairs
    · rw [h1] at h
      exact Except.noConfusion h
    rcases h2 : r.remove.mapM to_timestamp with _ | removeL
    · rw [h1, h2] at h
      exact Except.noConfusion h
    rcases h3 : r.meta.mapM (fun p => do
        let d ← to_timestamp p.1
        let v ← validateDateMeta p.2
        pure (d, v)) with _ | metaPairs
    · rw [h1, h2, h3] at h
      exact Except.noConfusion h
    rw [h1, h2, h3] at h
    injection h with h
    rw [← h]
    exact canonicalize_canonical (keysNodup_dictBuild _) (keysNodup_dictBuild _)
  · intro cs v p ha hm herr
    unfold ChangeSet.add_day at herr ⊢
    rcases hv : to_timestamp v with e | d
    · try rw [hv] at herr
      simp at herr
    · try rw [hv] at herr
      try rw [hv]
      dsimp only at herr ⊢
      rcases hp : validateDayPropsInput p with e | p'
      · try rw [hp] at herr
        simp at herr
      · try rw [hp] at herr
        try rw [hp]
        dsimp only at herr ⊢
        by_cases hdup : (dictLookup cs.add d).isSome
        · rw [if_pos hdup] at herr
          simp at herr
        · rw [if_neg hdup]
          show (ChangeSet.canonicalize { cs with add := dictInsert cs.add d p' }).canonical
          exact canonicalize_canonical (keysNodup_insert p' ha) hm
  · intro cs v ha hm herr
    unfold ChangeSet.remove_day at herr ⊢
    rcases hv : to_timestamp v with e | d
    · try rw [hv] at herr
      simp at herr
    · show (ChangeSet.canonicalize { cs with remove := cs.remove ++ [d] }).canonical
      exact canonicalize_canonical ha hm

/-- C1 witness: construction from a raw mapping, an `add_day`, and a
`remove_day` on concrete data all yield canonical changesets. -/
theorem C1_canonical_after_mutation_witness :
    (ChangeSet.parse ⟨[(.dateStr 1, .obj (.props .holiday "H"))], [.dateStr 2], []⟩ =
        .ok (ChangeSet.canonicalize
          ⟨[(86400000000000, .props .holiday "H")], [172800000000000], []⟩) →
      (ChangeSet.canonicalize
        ⟨[(86400000000000, .props .holiday "H")], [172800000000000], []⟩).canonical) ∧
    (ChangeSet.empty.add_day (.dateStr 0) (.obj (.props .holiday "H"))).state.canonical ∧
    (ChangeSet.empty.remove_day (.dateStr 0)).state.canonical := by
  refine ⟨fun h => C1_canonical_after_mutation.1 _ _ h, ?_, ?_⟩
  · exact C1_canonical_after_mutation.2.1 ChangeSet.empty (.dateStr 0)
      (.obj (.props .holiday "H")) List.Pairwise.nil List.Pairwise.nil rfl
  · exact C1_canonical_after_mutation.2.2 ChangeSet.empty (.dateStr 0)
      List.Pairwise.nil List.Pairwise.nil rfl

/-- C5: a successful `set_tags` stores, at the given date, the tags sorted
ascending and de-duplicated (membership is exactly that of the input
collection); with empty or `None` tags and no comment set for the date, the
date ends up absent from `meta`; and whatever `set_tags` leaves stored at
the date has positive size — an empty `DateMeta` is never stored. -/
theorem C5_set_tags_canonical (cs : ChangeSet) (v : TsInput) (d : Timestamp)
    (ti : TagsInput) (ts : Option (List String))
    (hn : keysNodup cs.meta)
    (hv : to_timestamp v = .ok d) (ht : validateTags ti = .ok ts) :
    (cs.set_tags v ti).err = none ∧
    (∀ m', dictLookup (cs.set_tags v ti).state.meta d = some m' →
      (m'.tags.Pairwise (· < ·) ∧ (∀ s, s ∈ m'.tags ↔ s ∈ ts.getD [])) ∧
      0 < m'.size) ∧
    ((ts = none ∨ ts = some []) →
      ((dictLookup cs.meta d).getD ⟨[], none⟩).comment = none →
      dictLookup (cs.set_tags v ti).state.meta d = none) := by
  rw [set_tags_ok cs hv ht]
  set m' : DateMeta := DateMeta.canonicalize
    ⟨ts.getD [], ((dictLookup cs.meta d).getD ⟨[], none⟩).comment⟩ with hm'
  by_cases hsz : 0 < m'.size
  · rw [if_pos hsz]
    refine ⟨rfl, ?_, ?_⟩
    · intro m'' hm''
      rw [dictLookup_insert_self] at hm''
      injection hm'' with hm''
      subst hm''
      refine ⟨⟨?_, ?_⟩, hsz⟩
      · exact sortDedupStr_strict _
      · intro s
        exact mem_sortDedupStr
    · intro hts hc
      exfalso
      apply absurd hsz
      rw [hm']
      show ¬(0 < (DateMeta.canonicalize ⟨ts.getD [], _⟩).size)
      rcases hts with hts | hts <;>
        simp [hts, DateMeta.canonicalize, DateMeta.size, sortDedupStr, hc, canonComment]
  · rw [if_neg hsz]
    refine ⟨rfl, ?_, ?_⟩
    · intro m'' hm''
      rw [dictLookup_remove_self _ hn] at hm''
      exact Option.noConfusion hm''
    · intro _ _
      exact dictLookup_remove_self _ hn

/-- C5 witness: setting tags with a duplicate on a fresh date, then
observing the canonical storage, and clearing them again. -/
theorem C5_set_tags_canonical_witness :
    (ChangeSet.empty.set_tags (.dateStr 0) (.coll [.str "foo", .str "bar", .str "foo"])).err =
        none ∧
    (∀ m', dictLookup (ChangeSet.empty.set_tags (.dateStr 0)
          (.coll [.str "foo", .str "bar", .str "foo"])).state.meta 0 = some m' →
      (m'.tags.Pairwise (· < ·) ∧
        (∀ s, s ∈ m'.tags ↔ s ∈ ["foo", "bar", "foo"])) ∧ 0 < m'.size) ∧
    ((some ["foo", "bar", "foo"] = (none : Option (List String)) ∨
        some ["foo", "bar", "foo"] = some ([] : List String)) →
      ((dictLookup ChangeSet.empty.meta 0).getD ⟨[], none⟩).comment = none →
      dictLookup (ChangeSet.empty.set_tags (.dateStr 0)
          (.coll [.str "foo", .str "bar", .str "foo"])).state.meta 0 = none) :=
  C5_set_tags_canonical ChangeSet.empty (.dateStr 0) 0
    (.coll [.str "foo", .str "bar", .str "foo"]) (some ["foo", "bar", "foo"])
    List.Pairwise.nil rfl rfl

/-- C6: when `set_tags` fails because the tag collection is invalid (for
example it holds a non-string element, or is not a collection), the error
propagates to the caller and the changeset afterwards is exactly the
changeset from before the call — the previous tags of the date are intact
and the metadata mapping is unchanged. -/
theorem C6_set_tags_error (cs : ChangeSet) (v : TsInput) (ti : TagsInput)
    (e : PErr) (ht : validateTags ti = .error e) :
    (cs.set_tags v ti).err.isSome = true ∧
    (cs.set_tags v ti).state = cs := by
  unfold ChangeSet.set_tags
  rcases hv : to_timestamp v with _ | d
  · exact ⟨rfl, rfl⟩
  · rw [ht]
    exact ⟨rfl, rfl⟩

/-- C6 witness: a tags collection holding the non-string value 1. -/
theorem C6_set_tags_error_witness :
    ((ChangeSet.mk [] [] [(0, ⟨["a"], none⟩)]).set_tags (.dateStr 0)
        (.coll [.str "foo", .nonStr 1])).err.isSome = true ∧
    ((ChangeSet.mk [] [] [(0, ⟨["a"], none⟩)]).set_tags (.dateStr 0)
        (.coll [.str "foo", .nonStr 1])).state = ChangeSet.mk [] [] [(0, ⟨["a"], none⟩)] :=
  C6_set_tags_error (ChangeSet.mk [] [] [(0, ⟨["a"], none⟩)]) (.dateStr 0)
    (.coll [.str "foo", .nonStr 1]) .validationError rfl

/-- C10: for a date whose stored metadata has a (canonical) comment,
`set_tags` with `None` or `[]` succeeds and leaves the date present with
empty tags and the comment unchanged; more generally `set_tags` never
modifies the comment of the touched date and leaves every other date's
metadata untouched. -/
theorem C10_set_tags_preserves_comment (cs : ChangeSet) (v : TsInput)
    (d : Timestamp) (ti : TagsInput) (ts : Option (List String))
    (m : DateMeta) (c : String)
    (hv : to_timestamp v = .ok d) (ht : validateTags ti = .ok ts)
    (hm : dictLookup cs.meta d = some m) (hc : m.comment = some c)
    (hcanon : canonComment (some c) = some c) :
    (cs.set_tags v ti).err = none ∧
    ((ts = none ∨ ts = some []) →
      dictLookup (cs.set_tags v ti).state.meta d = some ⟨[], some c⟩) ∧
    (∀ m', dictLookup (cs.set_tags v ti).state.meta d = some m' →
      m'.comment = some c) ∧
    (∀ d', d' ≠ d →
      dictLookup (cs.set_tags v ti).state.meta d' = dictLookup cs.meta d') := by
  rw [set_tags_ok cs hv ht]
  have hcm : ((dictLookup cs.meta d).getD ⟨[], none⟩).comment = some c := by
    rw [hm]
    exact hc
  set m' : DateMeta := DateMeta.canonicalize
    ⟨ts.getD [], ((dictLookup cs.meta d).getD ⟨[], none⟩).comment⟩ with hm'
  have hm'c : m'.comment = some c := by
    rw [hm']
    show canonComment ((dictLookup cs.meta d).getD ⟨[], none⟩).comment = some c
    rw [hcm]
    exact hcanon
  have hsz : 0 < m'.size := by
    unfold DateMeta.size
    rw [hm'c]
    simp
  rw [if_pos hsz]
  refine ⟨rfl, ?_, ?_, ?_⟩
  · intro hts
    rw [dictLookup_insert_self]
    have : m' = ⟨[], some c⟩ := by
      rw [hm']
      show DateMeta.mk (sortDedupStr (ts.getD []))
        (canonComment ((dictLookup cs.meta d).getD ⟨[], none⟩).comment) = _
      rw [hcm, hcanon]
      rcases hts with hts | hts <;> rw [hts] <;> rfl
    rw [this]
  · intro m'' hm''
    rw [dictLookup_insert_self] at hm''
    injection hm'' with hm''
    rw [← hm'']
    exact hm'c
  · intro d' hd'
    exact dictLookup_insert_ne _ _ hd'

/-- C10 witness: day 0 holds the comment "hi"; clearing the tags with `None`
keeps the date with its comment. -/
theorem C10_set_tags_preserves_comment_witness :
    ((ChangeSet.mk [] [] [(0, ⟨["a"], some "hi"⟩)]).set_tags (.dateStr 0)
        .noneV).err = none ∧
    ((none = (none : Option (List String)) ∨ none = some ([] : List String)) →
      dictLookup ((ChangeSet.mk [] [] [(0, ⟨["a"], some "hi"⟩)]).set_tags (.dateStr 0)
          .noneV).state.meta 0 = some ⟨[], some "hi"⟩) ∧
    (∀ m', dictLookup ((ChangeSet.mk [] [] [(0, ⟨["a"], some "hi"⟩)]).set_tags (.dateStr 0)
          .noneV).state.meta 0 = some m' → m'.comment = some "hi") ∧
    (∀ d', d' ≠ 0 →
      dictLookup ((ChangeSet.mk [] [] [(0, ⟨["a"], some "hi"⟩)]).set_tags (.dateStr 0)
          .noneV).state.meta d' =
        dictLookup (ChangeSet.mk [] [] [(0, ⟨["a"], some "hi"⟩)]).meta d') :=
  C10_set_tags_preserves_comment (ChangeSet.mk [] [] [(0, ⟨["a"], some "hi"⟩)])
    (.dateStr 0) 0 .noneV none ⟨["a"], some "hi"⟩ "hi" rfl rfl rfl rfl (by decide)

theorem isSpecial_not_isPlain {ty : DayType} (h : ty.isSpecial = true) :
    ty.isPlain = false := by
  cases ty <;> first | rfl | exact Bool.noConfusion h

/-- C7: validating a day-properties shape enforces the discriminated union:
for a special-open or special-close type the `time` entry is required (its
absence is a failure) and a time string must parse as `HH:MM` or `HH:MM:SS`
(a native time object is taken as-is and a well-formed shape validates);
for a holiday or expiry type the presence of a `time` entry is a validation
failure rather than being ignored; and any unknown key is a validation
failure. -/
theorem C7_day_props_validation (r : RawDayProps) :
    (∀ ty, r.type = some ty → ty.isSpecial = true → r.time = none →
      validateDayProps r = .error .validationError) ∧
    (∀ ty s, r.type = some ty → ty.isSpecial = true → r.time = some (.timeStr s) →
      parseTimeStr s = none → validateDayProps r = .error .validationError) ∧
    (∀ ty nm tv t, r = ⟨some ty, some nm, some tv, []⟩ → ty.isSpecial = true →
      to_time tv = .ok t → validateDayProps r = .ok (.propsWithTime ty nm t)) ∧
    (∀ ty, r.type = some ty → ty.isPlain = true → r.time.isSome = true →
      validateDayProps r = .error .validationError) ∧
    (r.extra ≠ [] → validateDayProps r = .error .validationError) := by
  refine ⟨?_, ?_, ?_, ?_, ?_⟩
  · intro ty hty hsp htime
    unfold validateDayProps
    rw [hty, htime]
    simp only [isSpecial_not_isPlain hsp, Bool.false_eq_true, if_false]
    by_cases hx : r.extra ≠ []
    · rw [if_pos hx]
    · rw [if_neg hx]
      cases hnm : r.name <;> rfl
  · intro ty s hty hsp htime hparse
    unfold validateDayProps
    rw [hty, htime]
    simp only [isSpecial_not_isPlain hsp, Bool.false_eq_true, if_false]
    by_cases hx : r.extra ≠ []
    · rw [if_pos hx]
    · rw [if_neg hx]
      cases hnm : r.name
      · rfl
      · have h1 : to_time (.timeStr s) = .error .validationError := by
          show (match parseTimeStr s with
            | some t => Except.ok t
            | none => Except.error PErr.validationError) = _
          rw [hparse]
        show ((to_time (.timeStr s)).map _) = _
        rw [h1]
        rfl
  · intro ty nm tv t hr hsp htt
    subst hr
    unfold validateDayProps
    simp only [isSpecial_not_isPlain hsp, Bool.false_eq_true, if_false]
    rw [if_neg (by simp)]
    show ((to_time tv).map _) = _
    rw [htt]
    rfl
  · intro ty hty hpl htime
    unfold validateDayProps
    rw [hty]
    simp only [hpl, if_true]
    rw [if_pos (Or.inr htime)]
  · intro hx
    unfold validateDayProps
    cases hty : r.type
    · rfl
    · rename_i ty
      dsimp only
      cases hpl : ty.isPlain
      · have hf : ¬(false = true) := Bool.false_ne_true
        rw [if_neg hf, if_pos hx]
      · have ht : (true = true) := rfl
        rw [if_pos ht, if_pos (Or.inl hx)]

/-- C7 witness: concrete shapes — a special open without a time, one with an
out-of-range time string, a valid one, a holiday carrying a time, and a
shape with an unknown key. -/
theorem C7_day_props_validation_witness :
    validateDayProps ⟨some .special_open, some "SO", none, []⟩ =
        .error .validationError ∧
    validateDayProps ⟨some .special_close, some "SC", some (.timeStr "25:00"), []⟩ =
        .error .validationError ∧
    validateDayProps ⟨some .special_open, some "SO", some (.timeStr "10:30"), []⟩ =
        .ok (.propsWithTime .special_open "SO" ⟨10, 30, 0⟩) ∧
    validateDayProps ⟨some .holiday, some "H", some (.timeObj ⟨10, 0, 0⟩), []⟩ =
        .error .validationError ∧
    validateDayProps ⟨some .holiday, some "H", none, ["foo"]⟩ =
        .error .validationError := by
  refine ⟨?_, ?_, ?_, ?_, ?_⟩
  · exact (C7_day_props_validation ⟨some .special_open, some "SO", none, []⟩).1
      .special_open rfl rfl rfl
  · exact (C7_day_props_validation
      ⟨some .special_close, some "SC", some (.timeStr "25:00"), []⟩).2.1
      .special_close "25:00" rfl rfl rfl rfl
  · exact (C7_day_props_validation
      ⟨some .special_open, some "SO", some (.timeStr "10:30"), []⟩).2.2.1
      .special_open "SO" (.timeStr "10:30") ⟨10, 30, 0⟩ rfl rfl rfl
  · exact (C7_day_props_validation
      ⟨some .holiday, some "H", some (.timeObj ⟨10, 0, 0⟩), []⟩).2.2.2.1
      .holiday rfl rfl rfl
  · exact (C7_day_props_validation ⟨some .holiday, some "H", none, ["foo"]⟩).2.2.2.2
      (by decide)

section RoundTrip

theorem except_bind_ok {γ δ : Type} (a : γ) (f : γ → Except PErr δ) :
    (Except.ok a >>= f) = f a := rfl

theorem mapM_map_ok {γ δ : Type} (f : γ → Except PErr δ) (g : δ → γ)
    (l : List δ) (h : ∀ x ∈ l, f (g x) = .ok x) :
    (l.map g).mapM f = Except.ok l := by
  induction l with
  | nil => rfl
  | cons x xs ih =>
    rw [List.map_cons, List.mapM_cons, h x (List.mem_cons_self x xs),
      ih (fun y hy => h y (List.mem_cons_of_mem _ hy))]
    rfl

theorem validateDayProps_serialize (p : DayPropsLike) (h : p.wf = true) :
    validateDayProps (serializeProps p) = .ok p := by
  cases p with
  | props ty nm =>
    cases ty <;> first | rfl | exact Bool.noConfusion h
  | propsWithTime ty nm t =>
    cases ty <;> first | rfl | exact Bool.noConfusion h

theorem validateTags_serialize (tags : List String) :
    validateTags (.coll (tags.map .str)) = .ok (some tags) := by
  have h : (tags.map TagVal.str).mapM
      (fun x => match x with | .str s => some s | .nonStr _ => none) = some tags := by
    induction tags with
    | nil => rfl
    | cons t ts ih =>
      rw [List.map_cons, List.mapM_cons, ih]
      rfl
  show (match (tags.map TagVal.str).mapM
      (fun x => match x with | .str s => some s | .nonStr _ => none) with
    | some ss => Except.ok (some ss)
    | none => Except.error PErr.validationError) = _
  rw [h]

theorem validateDateMeta_serialize (m : DateMeta) (h : m.canonical) :
    validateDateMeta (serializeMeta m) = .ok m := by
  unfold validateDateMeta serializeMeta
  rw [validateTags_serialize m.tags]
  show Except.ok (DateMeta.canonicalize ⟨m.tags, m.comment⟩) = _
  unfold DateMeta.canonicalize
  rw [h.1, h.2]

theorem parse_serialize (cs : ChangeSet)
    (hwf : ∀ p ∈ cs.add, DayPropsLike.wf p.2 = true)
    (hcm : ∀ p ∈ cs.meta, DateMeta.canonical p.2)
    (hna : keysNodup cs.add) (hnm : keysNodup cs.meta) :
    ChangeSet.parse cs.serialize = .ok cs.canonicalize := by
  unfold ChangeSet.parse ChangeSet.serialize
  rw [mapM_map_ok _ _ cs.add (fun x hx => by
    show (do
      let d ← to_timestamp (.ts x.1)
      let v ← validateDayPropsInput (.raw (serializeProps x.2))
      pure (d, v)) = Except.ok x
    show (do
      let v ← validateDayPropsInput (.raw (serializeProps x.2))
      pure (x.1, v)) = Except.ok x
    show (validateDayPropsInput (.raw (serializeProps x.2)) >>= fun v =>
      pure (x.1, v)) = Except.ok x
    rw [show validateDayPropsInput (.raw (serializeProps x.2)) =
        validateDayProps (serializeProps x.2) from rfl]
    rw [validateDayProps_serialize x.2 (hwf x hx)]
    rw [except_bind_ok]
    rfl)]
  rw [except_bind_ok]
  rw [mapM_map_ok to_timestamp TsInput.ts cs.remove (fun x _ => rfl)]
  rw [except_bind_ok]
  rw [mapM_map_ok _ _ cs.meta (fun x hx => by
    show (do
      let v ← validateDateMeta (serializeMeta x.2)
      pure (x.1, v)) = Except.ok x
    rw [show ((do
        let v ← validateDateMeta (serializeMeta x.2)
        pure (x.1, v)) : Except PErr (Timestamp × DateMeta)) =
      (validateDateMeta (serializeMeta x.2) >>= fun v => pure (x.1, v)) from rfl]
    rw [validateDateMeta_serialize x.2 (hcm x hx)]
    rw [except_bind_ok]
    rfl)]
  rw [except_bind_ok]
  show Except.ok (ChangeSet.canonicalize
    ⟨dictBuild cs.add, cs.remove, dictBuild cs.meta⟩) = _
  rw [dictBuild_eq_self hna, dictBuild_eq_self hnm]

/-- C4: for every structurally valid changeset, serializing to the plain
nested-mapping form and re-parsing yields exactly the canonicalized
changeset, which is equal to the original under the component-wise
(`__eq__`) equality of `add`, `remove` and `meta`; re-serializing and
re-parsing that result reproduces it unchanged, so parse followed by
serialize is idempotent. -/
theorem C4_roundtrip (cs : ChangeSet) (h : cs.valid) :
    ChangeSet.parse cs.serialize = .ok cs.canonicalize ∧
    ChangeSet.pyEq cs cs.canonicalize = true ∧
    ChangeSet.parse cs.canonicalize.serialize = .ok cs.canonicalize := by
  obtain ⟨hadd, hwf, hrem, hmeta, hcanonm⟩ := h
  have hnadd := strictKeys_keysNodup hadd
  have h1 : ChangeSet.parse cs.serialize = .ok cs.canonicalize :=
    parse_serialize cs hwf hcanonm hnadd hmeta
  have hc : cs.canonicalize = ⟨cs.add, cs.remove, sortByKey cs.meta⟩ := by
    show (⟨sortByKey cs.add, sortDedup cs.remove, sortByKey cs.meta⟩ : ChangeSet) = _
    rw [sortByKey_eq_of_strict hadd, sortDedup_eq_self hrem]
  have h2 : ChangeSet.pyEq cs cs.canonicalize = true := by
    rw [hc]
    unfold ChangeSet.pyEq
    rw [Bool.and_eq_true, Bool.and_eq_true]
    refine ⟨⟨dictBEq_refl hnadd, by simp⟩, dictBEq_sortByKey hmeta⟩
  have hmeta' : keysNodup (sortByKey cs.meta) :=
    keysNodup_of_perm (sortByKey_perm cs.meta).symm hmeta
  have h3 : ChangeSet.parse cs.canonicalize.serialize =
      .ok cs.canonicalize.canonicalize := by
    apply parse_serialize
    · rw [hc]
      exact hwf
    · rw [hc]
      intro p hp
      exact hcanonm p ((sortByKey_perm cs.meta).mem_iff.1 hp)
    · rw [hc]
      exact hnadd
    · rw [hc]
      exact hmeta'
  have hidem : cs.canonicalize.canonicalize = cs.canonicalize :=
    canonical_canonicalize_eq (canonicalize_canonical hnadd hmeta)
  rw [hidem] at h3
  exact ⟨h1, h2, h3⟩

/-- C4 witness: a concrete valid changeset with one added holiday, one
removed day, and metadata (entered out of date order) for two days. -/
theorem C4_roundtrip_witness :
    ChangeSet.parse (ChangeSet.serialize
        ⟨[(0, .props .holiday "H")], [86400000000000],
         [(172800000000000, ⟨["a"], none⟩), (0, ⟨[], some "hi"⟩)]⟩) =
      .ok (ChangeSet.canonicalize
        ⟨[(0, .props .holiday "H")], [86400000000000],
         [(172800000000000, ⟨["a"], none⟩), (0, ⟨[], some "hi"⟩)]⟩) ∧
    ChangeSet.pyEq
        ⟨[(0, .props .holiday "H")], [86400000000000],
         [(172800000000000, ⟨["a"], none⟩), (0, ⟨[], some "hi"⟩)]⟩
        (ChangeSet.canonicalize
          ⟨[(0, .props .holiday "H")], [86400000000000],
           [(172800000000000, ⟨["a"], none⟩), (0, ⟨[], some "hi"⟩)]⟩) = true ∧
    ChangeSet.parse (ChangeSet.serialize (ChangeSet.canonicalize
        ⟨[(0, .props .holiday "H")], [86400000000000],
         [(172800000000000, ⟨["a"], none⟩), (0, ⟨[], some "hi"⟩)]⟩)) =
      .ok (ChangeSet.canonicalize
        ⟨[(0, .props .holiday "H")], [86400000000000],
         [(172800000000000, ⟨["a"], none⟩), (0, ⟨[], some "hi"⟩)]⟩) :=
  C4_roundtrip
    ⟨[(0, .props .holiday "H")], [86400000000000],
     [(172800000000000, ⟨["a"], none⟩), (0, ⟨[], some "hi"⟩)]⟩
    (by
      refine ⟨?_, ?_, ?_, ?_, ?_⟩ <;> decide)

end RoundTrip

end ExchCal
